import Mathlib

/-!
# AI-Travel-Planner — verification of the expense-ledger core

A shallow embedding of the trip budgeting and expense-reconciliation
pipeline of the AI-Travel-Planner repository, with theorems settling the
spec's claims about it.

The embedded code:

* the client-side expense ledger of
  `src/frontend/components/trip-history.tsx` (the `applyExpenseDelta`
  aggregate updater and the `handleExpenseSubmit` / `handleExpenseUpdate` /
  `handleExpenseDelete` mutation handlers);
* the Next.js API route handlers for `/api/expenses`
  (POST / PATCH / DELETE guards) and `/api/expenses/parse` (POST guard);
* the voice-parse prefill logic `parseVoiceContent` of the extended
  TripHistory component (`src/unnamed/part_004`);
* spec-modelled definitions for the two pieces of the FastAPI backend that
  are not in the source tree: the BudgetAllocator reconciliation arithmetic
  and the DELETE expense endpoint semantics.

Monetary amounts are embedded as `ℚ` (the source stores JavaScript
numbers holding decimal amounts; the claims under scrutiny concern exact
decimal ledger arithmetic, not binary-float rounding). Strings falsy in
JavaScript (`""`, `null`/absent) are modelled explicitly where the source
branches on truthiness.
-/

namespace TravelPlanner

/-! ## Data model (from `trip-history.tsx` interfaces and `schema.sql`) -/

/-- `ExpenseItem` of `trip-history.tsx`: one persisted expense row as the
client sees it. -/
structure ExpenseItem where
  id : String
  category : String
  amount : ℚ
  currency : String
  occurredOn : Option String
  createdAt : String
deriving DecidableEq

/-- The aggregate fields of the selected trip (`TripSummary` /
`TripDetail` of `trip-history.tsx`): the ledger view the delta updater
mutates. -/
structure TripView where
  totalBudget : Option ℚ
  currency : Option String
  totalExpenses : Option ℚ
  remainingBudget : Option ℚ
deriving DecidableEq

/-- The client component state relevant to the ledger: the selected trip
(`selectedTrip`, `none` when collapsed), the expense list (`expenses`) and
the error message (`expenseError`). -/
structure ClientState where
  trip : Option TripView
  expenses : List ExpenseItem
  expenseError : Option String
deriving DecidableEq

/-- Sum of the amounts of a list of expenses — the "true sum" the spec's
ledger invariant compares `total_expenses` against. -/
def expensesSum (l : List ExpenseItem) : ℚ :=
  (l.map (fun e => e.amount)).sum

/-- The id column of an expense list. -/
def ids (l : List ExpenseItem) : List String :=
  l.map (fun e => e.id)

/-! ## Client ledger operations (`trip-history.tsx`) -/

/-- `applyExpenseDelta` (trip-history.tsx): functional update of the
selected trip's aggregates.  `newTotal = (prev.total_expenses ?? 0) + delta`;
`derivedRemaining` prefers adjusting an existing `remaining_budget`, else
derives it from `total_budget`, else stays `null`.  A `null` selected trip
is returned unchanged. -/
def applyExpenseDelta (delta : ℚ) (s : ClientState) : ClientState :=
  match s.trip with
  | none => s
  | some prev =>
    let newTotal := prev.totalExpenses.getD 0 + delta
    let derivedRemaining :=
      match prev.remainingBudget with
      | some r => some (r - delta)
      | none =>
        match prev.totalBudget with
        | some b => some (b - newTotal)
        | none => none
    { s with
        trip := some { prev with
          totalExpenses := some newTotal
          remainingBudget := derivedRemaining } }

/-- Outcome of an awaited HTTP request: the resolved payload, or a
rejection (network failure or non-2xx mapped to a thrown error). -/
inductive HttpResult (α : Type) where
  | ok (value : α)
  | failed
deriving DecidableEq

/-- `handleExpenseSubmit` (trip-history.tsx): guard on a selected trip,
POST the draft, and on success prepend the server's expense row, clear the
error and apply a `+amount` delta; on request failure only set the error
message.  The draft-string validation that precedes the request is not
modelled — it happens before any state mutation and before the request. -/
def handleExpenseSubmit (s : ClientState) (response : HttpResult ExpenseItem) :
    ClientState :=
  match s.trip with
  | none => { s with expenseError := some "请先登录并选择行程。" }
  | some _ =>
    match response with
    | .failed => { s with expenseError := some "新增费用失败，请稍后重试。" }
    | .ok item =>
      applyExpenseDelta item.amount
        { s with expenses := item :: s.expenses, expenseError := none }

/-- `handleExpenseUpdate` (trip-history.tsx): PATCH, and on success replace
every list item whose id matches the edited expense by the server's row,
apply a `updated.amount - expense.amount` delta and clear the error; on
request failure only set the error message. -/
def handleExpenseUpdate (s : ClientState) (expense : ExpenseItem)
    (response : HttpResult ExpenseItem) : ClientState :=
  match response with
  | .failed => { s with expenseError := some "更新费用失败，请稍后再试。" }
  | .ok updated =>
    applyExpenseDelta (updated.amount - expense.amount)
      { s with
          expenses :=
            s.expenses.map (fun item =>
              if item.id = expense.id then updated else item)
          expenseError := none }

/-- `handleExpenseDelete` (trip-history.tsx): DELETE, and on success drop
every list item whose id matches, apply a `-expense.amount` delta and clear
the error; on request failure only set the error message. -/
def handleExpenseDelete (s : ClientState) (expense : ExpenseItem)
    (response : HttpResult Unit) : ClientState :=
  match response with
  | .failed => { s with expenseError := some "删除费用失败，请稍后再试。" }
  | .ok _ =>
    applyExpenseDelta (-expense.amount)
      { s with
          expenses := s.expenses.filter (fun item => item.id ≠ expense.id)
          expenseError := none }

/-! ## The ledger as a transition system

Each successful mutation is one transition: the success branch of the
corresponding handler.  `exec` folds a sequence of such mutations. -/

/-- A successful ledger mutation, carrying the server's response row. -/
inductive LedgerOp where
  | create (item : ExpenseItem)
  | update (old updated : ExpenseItem)
  | delete (item : ExpenseItem)
deriving DecidableEq

/-- One successful mutation = one invocation of the matching handler with
an `ok` response. -/
def applyOp (s : ClientState) : LedgerOp → ClientState
  | .create item => handleExpenseSubmit s (.ok item)
  | .update old updated => handleExpenseUpdate s old (.ok updated)
  | .delete item => handleExpenseDelete s item (.ok ())

/-- Run a sequence of successful mutations. -/
def exec (s : ClientState) : List LedgerOp → ClientState
  | [] => s
  | op :: rest => exec (applyOp s op) rest

/-- Well-formedness of one mutation against the current state: a created
row carries a fresh id (ids are `uuid` primary keys in `schema.sql`); an
update or delete targets a row actually present in the rendered list, and
the server echoes the updated row under the same id. -/
def WfOp (s : ClientState) : LedgerOp → Prop
  | .create item => item.id ∉ ids s.expenses
  | .update old updated => old ∈ s.expenses ∧ updated.id = old.id
  | .delete item => item ∈ s.expenses

/-- Well-formedness of a mutation sequence, each step judged in the state
the previous steps produced. -/
def WfOps (s : ClientState) : List LedgerOp → Prop
  | [] => True
  | op :: rest => WfOp s op ∧ WfOps (applyOp s op) rest

/-- The spec's ledger invariant: a trip is selected and its
`total_expenses` equals the sum of the amounts of the listed expenses. -/
def TotalMatches (s : ClientState) : Prop :=
  match s.trip with
  | none => False
  | some t => t.totalExpenses = some (expensesSum s.expenses)

instance decWfOp (s : ClientState) : (op : LedgerOp) → Decidable (WfOp s op)
  | .create item => inferInstanceAs (Decidable (item.id ∉ ids s.expenses))
  | .update _old _updated => inferInstanceAs (Decidable (_ ∧ _))
  | .delete item => inferInstanceAs (Decidable (item ∈ s.expenses))

instance decWfOps : (s : ClientState) → (ops : List LedgerOp) → Decidable (WfOps s ops)
  | _, [] => .isTrue trivial
  | s, op :: rest =>
    have : Decidable (WfOps (applyOp s op) rest) := decWfOps _ _
    inferInstanceAs (Decidable (_ ∧ _))

instance decTotalMatches : (s : ClientState) → Decidable (TotalMatches s)
  | ⟨none, _, _⟩ => .isFalse (fun h => h)
  | ⟨some _, _, _⟩ => inferInstanceAs (Decidable (_ = _))

/-! ## Sum and id bookkeeping lemmas -/

lemma expensesSum_cons (e : ExpenseItem) (l : List ExpenseItem) :
    expensesSum (e :: l) = e.amount + expensesSum l := by
  simp [expensesSum]

lemma ids_cons (e : ExpenseItem) (l : List ExpenseItem) :
    ids (e :: l) = e.id :: ids l := rfl

lemma mem_ids_of_mem {e : ExpenseItem} {l : List ExpenseItem} (h : e ∈ l) :
    e.id ∈ ids l := List.mem_map_of_mem _ h

/-- Replacing by id is the identity on a list holding no matching id. -/
lemma replace_eq_self {l : List ExpenseItem} {i : String} {u : ExpenseItem}
    (h : ∀ x ∈ l, x.id ≠ i) :
    l.map (fun item => if item.id = i then u else item) = l := by
  induction l with
  | nil => rfl
  | cons a tl ih =>
    simp only [List.map_cons]
    rw [if_neg (h a (List.mem_cons_self a tl)),
      ih (fun x hx => h x (List.mem_cons_of_mem _ hx))]

/-- With distinct ids, the PATCH success branch's map replaces exactly the
edited row, so the sum shifts by `u.amount - old.amount`. -/
lemma expensesSum_replace {l : List ExpenseItem} {old u : ExpenseItem}
    (hnd : (ids l).Nodup) (hmem : old ∈ l) :
    expensesSum (l.map (fun item => if item.id = old.id then u else item)) =
      expensesSum l - old.amount + u.amount := by
  induction l with
  | nil => cases hmem
  | cons a tl ih =>
    rw [ids_cons, List.nodup_cons] at hnd
    rcases List.mem_cons.mp hmem with rfl | hmem2
    · have hrest : ∀ x ∈ tl, x.id ≠ old.id := by
        intro x hx hxe
        exact hnd.1 (hxe ▸ mem_ids_of_mem hx)
      rw [List.map_cons, if_pos rfl, replace_eq_self hrest, expensesSum_cons,
        expensesSum_cons]
      ring
    · by_cases hai : a.id = old.id
      · exact absurd (by rw [hai]; exact mem_ids_of_mem hmem2) hnd.1
      · simp only [List.map_cons, if_neg hai, expensesSum_cons,
          ih hnd.2 hmem2]
        ring

/-- A same-id replacement leaves the id column unchanged. -/
lemma ids_replace {l : List ExpenseItem} {old u : ExpenseItem}
    (hid : u.id = old.id) :
    ids (l.map (fun item => if item.id = old.id then u else item)) = ids l := by
  induction l with
  | nil => rfl
  | cons a tl ih =>
    by_cases hai : a.id = old.id
    · simp [ids_cons, if_pos hai, hid, hai, ih]
    · simp [ids_cons, if_neg hai, ih]

/-- Filtering away an absent id is the identity. -/
lemma filter_eq_self_of_not_mem {l : List ExpenseItem} {i : String}
    (h : ∀ x ∈ l, x.id ≠ i) :
    l.filter (fun item => item.id ≠ i) = l := by
  induction l with
  | nil => rfl
  | cons a tl ih =>
    rw [List.filter_cons, if_pos (by simp [h a (List.mem_cons_self a tl)]),
      ih (fun x hx => h x (List.mem_cons_of_mem _ hx))]

/-- With distinct ids, the DELETE success branch's filter removes exactly
the targeted row, so the sum drops by its amount. -/
lemma expensesSum_filter_ne {l : List ExpenseItem} {e : ExpenseItem}
    (hnd : (ids l).Nodup) (hmem : e ∈ l) :
    expensesSum (l.filter (fun item => item.id ≠ e.id)) =
      expensesSum l - e.amount := by
  induction l with
  | nil => cases hmem
  | cons a tl ih =>
    rw [ids_cons, List.nodup_cons] at hnd
    rcases List.mem_cons.mp hmem with rfl | hmem2
    · have hrest : ∀ x ∈ tl, x.id ≠ e.id := by
        intro x hx hxe
        exact hnd.1 (hxe ▸ mem_ids_of_mem hx)
      rw [List.filter_cons, if_neg (by simp), filter_eq_self_of_not_mem hrest,
        expensesSum_cons]
      ring
    · by_cases hai : a.id = e.id
      · exact absurd (by rw [hai]; exact mem_ids_of_mem hmem2) hnd.1
      · rw [List.filter_cons, if_pos (by simp [hai]), expensesSum_cons,
          ih hnd.2 hmem2, expensesSum_cons]
        ring

/-- The id column of a filtered list is a sublist of the original id
column, so distinctness survives filtering. -/
lemma nodup_ids_filter {l : List ExpenseItem} (p : ExpenseItem → Bool)
    (hnd : (ids l).Nodup) : (ids (l.filter p)).Nodup := by
  refine hnd.sublist ?_
  unfold ids
  exact (List.filter_sublist l).map (fun e => e.id)

/-! ## Invariant preservation -/

/-- The inductive invariant: the spec's no-drift equation plus distinct
expense ids (ids are `uuid` primary keys in `schema.sql`, so server rows
carry distinct ids). -/
def GoodState (s : ClientState) : Prop :=
  TotalMatches s ∧ (ids s.expenses).Nodup

lemma goodState_applyOp (s : ClientState) (op : LedgerOp)
    (hs : GoodState s) (hw : WfOp s op) : GoodState (applyOp s op) := by
  obtain ⟨trip, exps, err⟩ := s
  cases trip with
  | none => exact hs.1.elim
  | some t =>
    obtain ⟨ht, hnd⟩ := hs
    have htot : t.totalExpenses = some (expensesSum exps) := ht
    cases op with
    | create item =>
      have hfresh : item.id ∉ ids exps := hw
      constructor
      · show TotalMatches _
        simp only [applyOp, handleExpenseSubmit, applyExpenseDelta]
        simp [TotalMatches, htot, expensesSum_cons, add_comm]
      · show (ids _).Nodup
        simp only [applyOp, handleExpenseSubmit, applyExpenseDelta]
        simp only [ids_cons, List.nodup_cons]
        exact ⟨hfresh, hnd⟩
    | update old updated =>
      obtain ⟨hmem, hid⟩ := hw
      constructor
      · show TotalMatches _
        simp only [applyOp, handleExpenseUpdate, applyExpenseDelta]
        simp only [TotalMatches, htot, Option.getD_some,
          expensesSum_replace hnd hmem, Option.some.injEq]
        ring
      · show (ids _).Nodup
        simp only [applyOp, handleExpenseUpdate, applyExpenseDelta]
        simpa only [ids_replace hid] using hnd
    | delete item =>
      have hmem : item ∈ exps := hw
      constructor
      · show TotalMatches _
        simp only [applyOp, handleExpenseDelete, applyExpenseDelta]
        simp only [TotalMatches, htot, Option.getD_some,
          expensesSum_filter_ne hnd hmem, Option.some.injEq]
        ring
      · show (ids _).Nodup
        simp only [applyOp, handleExpenseDelete, applyExpenseDelta]
        exact nodup_ids_filter _ hnd

lemma goodState_exec : ∀ (ops : List LedgerOp) (s : ClientState),
    GoodState s → WfOps s ops → GoodState (exec s ops)
  | [], _, hs, _ => hs
  | op :: rest, s, hs, hw =>
    goodState_exec rest (applyOp s op)
      (goodState_applyOp s op hs hw.1) hw.2

/-! ## Concrete scenario data (spec §8, used by several witnesses) -/

/-- A trip with `total_budget = 10000`, currency CNY, zero spent. -/
def tripCNY : TripView :=
  { totalBudget := some 10000
    currency := some "CNY"
    totalExpenses := some 0
    remainingBudget := some 10000 }

/-- Selected-trip client state with an empty expense list. -/
def stateCNY : ClientState :=
  { trip := some tripCNY, expenses := [], expenseError := none }

/-- The spec scenario's meal expense of 180 CNY. -/
def mealExpense : ExpenseItem :=
  { id := "exp-1", category := "餐饮", amount := 180, currency := "CNY"
    occurredOn := none, createdAt := "2024-01-01" }

/-- The same expense after editing the amount to 200. -/
def mealExpense200 : ExpenseItem :=
  { mealExpense with amount := 200 }

/-! ## C1 — the no-drift ledger invariant -/

/-- C1: starting from a selected-trip state whose `total_expenses` equals
the sum of the listed expense amounts (with the rows carrying distinct
ids, as the `uuid` primary key of `schema.sql` guarantees), every state
reached by any sequence of successful create / update / delete mutations
still satisfies `total_expenses = sum of listed amounts`.  Reachable
states are exactly `exec s ops` for well-formed `ops`, so quantifying over
all sequences covers every reachable state and every interleaving
order. -/
theorem ledger_no_drift (s : ClientState) (ops : List LedgerOp)
    (hs : TotalMatches s) (hnd : (ids s.expenses).Nodup)
    (hw : WfOps s ops) : TotalMatches (exec s ops) :=
  (goodState_exec ops s ⟨hs, hnd⟩ hw).1

theorem ledger_no_drift_witness :
    TotalMatches (exec stateCNY
      [.create mealExpense, .update mealExpense mealExpense200,
       .delete mealExpense200]) :=
  ledger_no_drift stateCNY
    [.create mealExpense, .update mealExpense mealExpense200,
     .delete mealExpense200]
    (by decide) (by decide) (by decide)

/-! ## C2 — the CNY 10000 spec scenario -/

/-- C2: on a trip with `total_budget = 10000` CNY and no expenses,
creating a 180-CNY expense yields `total_expenses = 180` and
`remaining_budget = 9820`; updating it to 200 yields 200 / 9800; deleting
it yields 0 / 10000. -/
theorem ledger_scenario_cny10000 :
    (exec stateCNY [.create mealExpense]).trip =
      some { totalBudget := some 10000, currency := some "CNY"
             totalExpenses := some 180, remainingBudget := some 9820 } ∧
    (exec stateCNY
        [.create mealExpense, .update mealExpense mealExpense200]).trip =
      some { totalBudget := some 10000, currency := some "CNY"
             totalExpenses := some 200, remainingBudget := some 9800 } ∧
    (exec stateCNY
        [.create mealExpense, .update mealExpense mealExpense200,
         .delete mealExpense200]).trip =
      some { totalBudget := some 10000, currency := some "CNY"
             totalExpenses := some 0, remainingBudget := some 10000 } := by
  refine ⟨?_, ?_, ?_⟩ <;>
    · simp only [exec, applyOp, handleExpenseSubmit, handleExpenseUpdate,
        handleExpenseDelete, applyExpenseDelta, stateCNY, tripCNY,
        mealExpense, mealExpense200, List.map_cons, List.map_nil,
        List.filter_cons, List.filter_nil]
      norm_num

/-! ## C3 — update applies its delta atomically -/

/-- C3: a successful update from amount `a` to amount `b` is a single
transition of the ledger (one invocation of `handleExpenseUpdate`, whose
success branch computes the new `total_expenses` and `remaining_budget`
in one functional state update): after that one transition
`total_expenses` has grown by exactly `b - a`, `remaining_budget` has
shrunk by exactly `b - a`, and the aggregate equals the sum of the updated
list — so no reachable state shows the old amount removed without the new
amount added. -/
theorem update_single_atomic_delta (s : ClientState) (t : TripView)
    (old updated : ExpenseItem) (r : ℚ)
    (htrip : s.trip = some t)
    (htot : t.totalExpenses = some (expensesSum s.expenses))
    (hrem : t.remainingBudget = some r)
    (hnd : (ids s.expenses).Nodup)
    (hmem : old ∈ s.expenses) :
    ∃ u : TripView,
      (applyOp s (.update old updated)).trip = some u ∧
      u.totalExpenses =
        some (expensesSum s.expenses + (updated.amount - old.amount)) ∧
      u.remainingBudget = some (r - (updated.amount - old.amount)) ∧
      u.totalExpenses =
        some (expensesSum (applyOp s (.update old updated)).expenses) := by
  obtain ⟨trip, exps, err⟩ := s
  cases trip with
  | none => cases htrip
  | some t0 =>
    obtain rfl : t0 = t := by injection htrip
    refine ⟨_, rfl, ?_, ?_, ?_⟩
    · simp only [applyOp, handleExpenseUpdate, applyExpenseDelta, htot,
        Option.getD_some]
    · simp only [applyOp, handleExpenseUpdate, applyExpenseDelta, hrem]
    · simp only [applyOp, handleExpenseUpdate, applyExpenseDelta, htot,
        Option.getD_some, expensesSum_replace hnd hmem, Option.some.injEq]
      ring

/-- The client state right after the scenario's create: one 180-CNY
expense listed, aggregates 180 spent / 9820 remaining. -/
def stateAfterCreate : ClientState :=
  { trip := some { totalBudget := some 10000, currency := some "CNY"
                   totalExpenses := some 180, remainingBudget := some 9820 }
    expenses := [mealExpense]
    expenseError := none }

theorem update_single_atomic_delta_witness :
    ∃ u : TripView,
      (applyOp stateAfterCreate
          (.update mealExpense mealExpense200)).trip = some u ∧
      u.totalExpenses =
        some (expensesSum stateAfterCreate.expenses +
          (mealExpense200.amount - mealExpense.amount)) ∧
      u.remainingBudget =
        some (9820 - (mealExpense200.amount - mealExpense.amount)) ∧
      u.totalExpenses =
        some (expensesSum (applyOp stateAfterCreate
          (.update mealExpense mealExpense200)).expenses) :=
  update_single_atomic_delta stateAfterCreate
    { totalBudget := some 10000, currency := some "CNY"
      totalExpenses := some 180, remainingBudget := some 9820 }
    mealExpense mealExpense200 9820
    rfl (by simp [stateAfterCreate, expensesSum, mealExpense]) rfl
    (by decide) (by decide)

/-! ## C10 — a failed request leaves the client ledger untouched -/

/-- C10: in each of the three mutation handlers the awaited request is the
first statement of the `try` block, so when it rejects, the `catch` branch
runs and only `setExpenseError` fires: the expense list, the selected
trip's aggregates (`total_expenses`, `remaining_budget`) and everything
else keep their prior values. -/
theorem failed_request_preserves_state (s : ClientState)
    (old e : ExpenseItem) (h : s.trip ≠ none) :
    (handleExpenseSubmit s .failed).trip = s.trip ∧
    (handleExpenseSubmit s .failed).expenses = s.expenses ∧
    (handleExpenseSubmit s .failed).expenseError =
      some "新增费用失败，请稍后重试。" ∧
    (handleExpenseUpdate s old .failed).trip = s.trip ∧
    (handleExpenseUpdate s old .failed).expenses = s.expenses ∧
    (handleExpenseUpdate s old .failed).expenseError =
      some "更新费用失败，请稍后再试。" ∧
    (handleExpenseDelete s e .failed).trip = s.trip ∧
    (handleExpenseDelete s e .failed).expenses = s.expenses ∧
    (handleExpenseDelete s e .failed).expenseError =
      some "删除费用失败，请稍后再试。" := by
  obtain ⟨trip, exps, err⟩ := s
  cases trip with
  | none => exact absurd rfl h
  | some t =>
    refine ⟨rfl, rfl, rfl, rfl, rfl, rfl, rfl, rfl, rfl⟩

theorem failed_request_preserves_state_witness :
    (handleExpenseSubmit stateCNY .failed).trip = stateCNY.trip ∧
    (handleExpenseSubmit stateCNY .failed).expenses = stateCNY.expenses ∧
    (handleExpenseSubmit stateCNY .failed).expenseError =
      some "新增费用失败，请稍后重试。" ∧
    (handleExpenseUpdate stateCNY mealExpense .failed).trip = stateCNY.trip ∧
    (handleExpenseUpdate stateCNY mealExpense .failed).expenses =
      stateCNY.expenses ∧
    (handleExpenseUpdate stateCNY mealExpense .failed).expenseError =
      some "更新费用失败，请稍后再试。" ∧
    (handleExpenseDelete stateCNY mealExpense .failed).trip = stateCNY.trip ∧
    (handleExpenseDelete stateCNY mealExpense .failed).expenses =
      stateCNY.expenses ∧
    (handleExpenseDelete stateCNY mealExpense .failed).expenseError =
      some "删除费用失败，请稍后再试。" :=
  failed_request_preserves_state stateCNY mealExpense mealExpense
    (by simp [stateCNY])

/-! ## API route guards (`/api/expenses` handlers, `/api/expenses/parse`)

The Next.js handlers proxy to the FastAPI backend.  JavaScript truthiness
on the extracted identifiers: `null`/absent and the empty string are
falsy. -/

/-- JavaScript truthiness of an optional string field. -/
def jsTruthy : Option String → Bool
  | none => false
  | some s => !(s == "")

/-- What a mutating `/api/expenses` handler does with a request: reject
with a 400 response, or forward it to the backend. -/
inductive RouteAction where
  | badRequest
  | forward
deriving DecidableEq

/-- POST /api/expenses: `if (!userId || !payload?.tripId)` → 400, else
`fetch` to the backend. -/
def expensesPost (userId tripId : Option String) : RouteAction :=
  if !jsTruthy userId || !jsTruthy tripId then .badRequest else .forward

/-- PATCH /api/expenses: `if (!userId || !expenseId)` → 400, else forward. -/
def expensesPatch (userId expenseId : Option String) : RouteAction :=
  if !jsTruthy userId || !jsTruthy expenseId then .badRequest else .forward

/-- DELETE /api/expenses: `if (!userId || !expenseId)` → 400, else forward. -/
def expensesDelete (userId expenseId : Option String) : RouteAction :=
  if !jsTruthy userId || !jsTruthy expenseId then .badRequest else .forward

/-! ## C9 — mutating endpoints demand their identifiers -/

/-- C9: each mutating `/api/expenses` handler answers a 400 response —
and in particular never reaches its backend `fetch` — when a required
identifier is absent: POST without `userId` or `tripId`, PATCH without
`userId` or `expenseId`, DELETE without `userId` or `expenseId`. -/
theorem mutating_routes_require_ids (userId tripId expenseId : Option String) :
    ((userId = none ∨ tripId = none) →
      expensesPost userId tripId = .badRequest) ∧
    ((userId = none ∨ expenseId = none) →
      expensesPatch userId expenseId = .badRequest) ∧
    ((userId = none ∨ expenseId = none) →
      expensesDelete userId expenseId = .badRequest) := by
  refine ⟨?_, ?_, ?_⟩ <;> rintro (rfl | rfl) <;>
    simp [expensesPost, expensesPatch, expensesDelete, jsTruthy]

theorem mutating_routes_require_ids_witness :
    expensesPost none (some "trip-1") = .badRequest ∧
    expensesPatch (some "user-1") none = .badRequest ∧
    expensesDelete none none = .badRequest :=
  ⟨(mutating_routes_require_ids none (some "trip-1") none).1 (Or.inl rfl),
   (mutating_routes_require_ids (some "user-1") none none).2.1 (Or.inr rfl),
   (mutating_routes_require_ids none none none).2.2 (Or.inl rfl)⟩

/-! ## C6 — the parse route's content guard does not trim -/

/-- The `content` field of a POST /api/expenses/parse body: absent (or any
other falsy non-string value — all rejected alike), present but not a
string, or a string. -/
inductive ParseContent where
  | missing
  | notString
  | str (s : String)
deriving DecidableEq

/-- What the parse route does with a request. -/
inductive ParseRouteAction where
  | badRequest
  | forwarded (content : String)
deriving DecidableEq

/-- POST /api/expenses/parse (route.ts): `if (!content || typeof content
!== "string")` → 400, else the body is forwarded to the backend parse
endpoint.  The guard checks falsiness, not trimmed emptiness. -/
def parseRoutePost (content : ParseContent) : ParseRouteAction :=
  match content with
  | .missing => .badRequest
  | .notString => .badRequest
  | .str s => if s = "" then .badRequest else .forwarded s

/-- C6 fails on the code: a whitespace-only content string — every
character whitespace, so it is empty after trimming — is truthy, so the
route forwards it to the backend instead of rejecting it with a
400-class response. -/
theorem parse_route_whitespace_forwarded :
    (" ").toList.all Char.isWhitespace = true ∧
    parseRoutePost (.str " ") = .forwarded " " := by
  refine ⟨rfl, rfl⟩

/-- C6 (amended): a request whose content is missing, not a string, or
exactly the empty string gets a 400-class response and is not forwarded;
every other string content — including whitespace-only content that trims
to empty — is forwarded to the backend. -/
theorem parse_route_guard (s : String) (hs : s ≠ "") :
    parseRoutePost .missing = .badRequest ∧
    parseRoutePost .notString = .badRequest ∧
    parseRoutePost (.str "") = .badRequest ∧
    parseRoutePost (.str s) = .forwarded s := by
  refine ⟨rfl, rfl, rfl, ?_⟩
  simp [parseRoutePost, hs]

theorem parse_route_guard_witness :
    parseRoutePost .missing = .badRequest ∧
    parseRoutePost .notString = .badRequest ∧
    parseRoutePost (.str "") = .badRequest ∧
    parseRoutePost (.str "打车 35 元") = .forwarded "打车 35 元" :=
  parse_route_guard "打车 35 元" (by decide)

/-! ## Voice-parse prefill (`parseVoiceContent` in the extended
TripHistory component, `src/unnamed/part_004`)

The parse response's `amount` is a JSON value the code probes with
`parsed.amount != null && !Number.isNaN(parsed.amount)`; the `occurredOn`
key is probed with `hasOwnProperty`, so an absent key and a present null
are distinguished. -/

/-- The `amount` field of the parse response as the prefill code sees it:
`null`/absent, a `NaN` number, or an actual number. -/
inductive JsonAmount where
  | jnull
  | jnan
  | jnum (q : ℚ)
deriving DecidableEq

/-- `ExpenseDraft` of the component: the four controlled form fields, all
strings. -/
structure ExpenseDraft where
  category : String
  amount : String
  currency : String
  occurredOn : String
deriving DecidableEq

/-- `ExpenseParseResponse` of the component.  `occurredOnField = none`
models an absent `occurredOn` key, `some none` a present null. -/
structure ExpenseParseResponse where
  category : Option String
  amount : JsonAmount
  currency : Option String
  occurredOnField : Option (Option String)
  confidence : Option ℚ
deriving DecidableEq

/-- JavaScript `a || b` on strings: the empty string is falsy. -/
def jsOrStr (a b : String) : String :=
  if a = "" then b else a

/-- JavaScript `toUpperCase()`, embedded character-wise so concrete
instances evaluate. -/
def toUpperStr (s : String) : String :=
  String.mk (s.data.map Char.toUpper)

/-- The `setDraft` updater inside `parseVoiceContent`: prefill the draft
from the parse response.  `amount` keeps its prior value unless the
response holds an actual number; `currencySource` is
`parsed.currency ?? (prev.currency || selectedTripCurrency || "CNY")` and
is uppercased when truthy, else defaulted to `"CNY"`; `occurredOn` is
overwritten (null mapping to `""`) only when the response carries the key;
`category` is `parsed.category ?? prev.category`. -/
def prefillDraft (parsed : ExpenseParseResponse) (prev : ExpenseDraft)
    (selectedTripCurrency : Option String) : ExpenseDraft :=
  let amountValue :=
    match parsed.amount with
    | .jnum q => toString q
    | _ => prev.amount
  let currencySource :=
    match parsed.currency with
    | some c => c
    | none => jsOrStr prev.currency
        (jsOrStr (selectedTripCurrency.getD "") "CNY")
  let normalizedCurrency :=
    if currencySource = "" then "CNY" else toUpperStr currencySource
  let nextOccurredOn :=
    match parsed.occurredOnField with
    | some v => v.getD ""
    | none => prev.occurredOn
  { category := parsed.category.getD prev.category
    amount := amountValue
    currency := normalizedCurrency
    occurredOn := nextOccurredOn }

/-! ## C7 — a missing parsed amount never becomes a zero amount -/

/-- C7: when the parse response's `amount` is null/absent or not a number,
the prefilled draft keeps the amount field at its prior value — in
particular it is never coerced to a zero amount. -/
theorem prefill_keeps_amount_on_null (parsed : ExpenseParseResponse)
    (prev : ExpenseDraft) (tripCurrency : Option String)
    (h : parsed.amount = .jnull ∨ parsed.amount = .jnan) :
    (prefillDraft parsed prev tripCurrency).amount = prev.amount := by
  rcases h with h | h <;> simp [prefillDraft, h]

theorem prefill_keeps_amount_on_null_witness :
    (prefillDraft
      { category := none, amount := .jnull, currency := none
        occurredOnField := none, confidence := none }
      { category := "餐饮", amount := "12", currency := "CNY"
        occurredOn := "" }
      none).amount = "12" :=
  prefill_keeps_amount_on_null _ _ _ (Or.inl rfl)

/-! ## C8 — parsed currency is uppercased, not cut to three letters -/

/-- C8 fails on the code: `parseVoiceContent` only applies `toUpperCase()`
to the response currency — unlike the manual currency input, which slices
to 3 characters — so a four-letter parsed currency lands in the draft as
four uppercase letters, not a 3-letter code. -/
theorem prefill_currency_four_letters :
    (prefillDraft
      { category := none, amount := .jnull, currency := some "euro"
        occurredOnField := none, confidence := none }
      { category := "餐饮", amount := "", currency := "CNY"
        occurredOn := "" }
      none).currency = "EURO" ∧ ("EURO").length ≠ 3 := by
  refine ⟨rfl, by decide⟩

/-- C8 (amended): when the parse response carries a non-empty currency
string, the prefilled draft's currency is exactly that string uppercased;
no truncation or padding is applied, so the result is a 3-letter code only
when the response value already had three characters. -/
theorem prefill_currency_uppercase (parsed : ExpenseParseResponse)
    (prev : ExpenseDraft) (tripCurrency : Option String) (c : String)
    (hc : parsed.currency = some c) (hne : c ≠ "") :
    (prefillDraft parsed prev tripCurrency).currency = toUpperStr c := by
  simp [prefillDraft, hc, hne]

theorem prefill_currency_uppercase_witness :
    (prefillDraft
      { category := none, amount := .jnull, currency := some "usd"
        occurredOnField := none, confidence := none }
      { category := "餐饮", amount := "", currency := "CNY"
        occurredOn := "" }
      none).currency = toUpperStr "usd" :=
  prefill_currency_uppercase _ _ none "usd" rfl (by decide)

/-! ## C4 — DELETE is idempotent at the HTTP boundary

The DELETE `/api/expenses` route handler is in src; the FastAPI backend
endpoint it proxies is not, so the backend half is modelled from the
spec. -/

/-- Modelled from the spec: the backend `DELETE /api/v1/expenses/{id}`
endpoint (the FastAPI service is absent from the source tree).  Per the
spec, delete is "idempotent at the HTTP boundary only": it removes the
row when present and reports success (204) to the caller either way, so a
repeated delete of an already-deleted id still reports success. -/
def backendDeleteExpense (rows : List ExpenseItem) (expenseId : String) :
    List ExpenseItem × Nat :=
  (rows.filter (fun r => r.id ≠ expenseId), 204)

/-- The DELETE `/api/expenses` route handler (src): missing identifiers →
400 without contacting the backend; otherwise forward, then answer 204
unless the backend status is neither 2xx nor 204. -/
def deleteExpenseRoute (userId expenseId : Option String)
    (rows : List ExpenseItem) : List ExpenseItem × Nat :=
  match userId, expenseId with
  | some u, some e =>
    if u = "" ∨ e = "" then (rows, 400)
    else
      let result := backendDeleteExpense rows e
      if ¬(200 ≤ result.2 ∧ result.2 < 300) ∧ result.2 ≠ 204 then result
      else (result.1, 204)
  | _, _ => (rows, 400)

/-- C4: with both identifiers supplied, a DELETE always reports 204 at the
HTTP boundary — in particular a repeated delete of an already-deleted id
reports success while leaving the stored rows (hence `total_expenses`)
unchanged — and when the id does exist (ids distinct, as the `uuid`
primary key guarantees), the aggregate drops by exactly that row's amount,
i.e. it is decremented exactly once per expense that actually existed. -/
theorem delete_idempotent_http (u eid : String) (rows : List ExpenseItem)
    (hu : u ≠ "") (he : eid ≠ "") (hnd : (ids rows).Nodup) :
    (deleteExpenseRoute (some u) (some eid) rows).2 = 204 ∧
    (eid ∉ ids rows →
      (deleteExpenseRoute (some u) (some eid) rows).1 = rows ∧
      expensesSum (deleteExpenseRoute (some u) (some eid) rows).1 =
        expensesSum rows) ∧
    (∀ r ∈ rows, r.id = eid →
      expensesSum (deleteExpenseRoute (some u) (some eid) rows).1 =
        expensesSum rows - r.amount) := by
  have hroute : deleteExpenseRoute (some u) (some eid) rows =
      (rows.filter (fun r => r.id ≠ eid), 204) := by
    simp [deleteExpenseRoute, backendDeleteExpense, hu, he]
  refine ⟨by rw [hroute], ?_, ?_⟩
  · intro habsent
    have hall : ∀ x ∈ rows, x.id ≠ eid := by
      intro x hx hxe
      exact habsent (hxe ▸ mem_ids_of_mem hx)
    rw [hroute, filter_eq_self_of_not_mem hall]
    exact ⟨rfl, rfl⟩
  · intro r hr hre
    rw [hroute, ← hre]
    exact expensesSum_filter_ne hnd hr

theorem delete_idempotent_http_witness :
    (deleteExpenseRoute (some "user-1") (some "exp-9")
        [mealExpense]).2 = 204 ∧
    ("exp-9" ∉ ids [mealExpense] →
      (deleteExpenseRoute (some "user-1") (some "exp-9")
          [mealExpense]).1 = [mealExpense] ∧
      expensesSum (deleteExpenseRoute (some "user-1") (some "exp-9")
          [mealExpense]).1 = expensesSum [mealExpense]) ∧
    (∀ r ∈ [mealExpense], r.id = "exp-9" →
      expensesSum (deleteExpenseRoute (some "user-1") (some "exp-9")
          [mealExpense]).1 = expensesSum [mealExpense] - r.amount) :=
  delete_idempotent_http "user-1" "exp-9" [mealExpense]
    (by decide) (by decide) (by decide)

/-! ## C5 — budget allocation sums exactly to the total

The BudgetAllocator lives in the FastAPI backend, absent from the source
tree; its reconciliation arithmetic is modelled from the spec.  Amounts
are in the currency's minor unit; the category vocabulary and split
ratios (`weights`) come from the language-understanding backend and are
parameters here. -/

/-- Total of the split ratios. -/
def weightSum (weights : List (String × ℕ)) : ℕ :=
  (weights.map (fun cw => cw.2)).sum

/-- Total of the bucket amounts of a breakdown. -/
def amountsSum (buckets : List (String × ℕ)) : ℕ :=
  (buckets.map (fun b => b.2)).sum

/-- Largest bucket amount of a breakdown. -/
def maxAmount (buckets : List (String × ℕ)) : ℕ :=
  (buckets.map (fun b => b.2)).foldr max 0

/-- Modelled from the spec: each category's share floored to the minor
unit, `amount = total * weight / weightSum`. -/
def baseBuckets (weights : List (String × ℕ)) (total : ℕ) :
    List (String × ℕ) :=
  weights.map (fun cw => (cw.1, total * cw.2 / weightSum weights))

/-- Modelled from the spec: "assign the rounding remainder to the largest
bucket" — add `r` to the first bucket holding the maximal amount `m`. -/
def addRemainderToLargest : List (String × ℕ) → ℕ → ℕ → List (String × ℕ)
  | [], _, _ => []
  | (c, a) :: rest, m, r =>
    if a = m then (c, a + r) :: rest
    else (c, a) :: addRemainderToLargest rest m r

/-- Modelled from the spec: `allocate(intent, total_budget, currency)`
reconciliation arithmetic.  A zero (or absent) total yields an empty
breakdown; otherwise floor every share and give the rounding remainder to
the largest bucket so the amounts sum exactly to the total. -/
def allocate (weights : List (String × ℕ)) (total : ℕ) :
    List (String × ℕ) :=
  if total = 0 then []
  else
    addRemainderToLargest (baseBuckets weights total)
      (maxAmount (baseBuckets weights total))
      (total - amountsSum (baseBuckets weights total))

lemma nat_div_add_div_le (a b c : ℕ) : a / c + b / c ≤ (a + b) / c := by
  rcases Nat.eq_zero_or_pos c with rfl | hc
  · simp
  · rw [Nat.le_div_iff_mul_le hc, Nat.add_mul]
    exact Nat.add_le_add (Nat.div_mul_le_self a c) (Nat.div_mul_le_self b c)

lemma sum_map_div_le (l : List ℕ) (c : ℕ) :
    (l.map (fun a => a / c)).sum ≤ l.sum / c := by
  induction l with
  | nil => simp
  | cons a tl ih =>
    simp only [List.map_cons, List.sum_cons]
    calc a / c + (tl.map (fun x => x / c)).sum
        ≤ a / c + tl.sum / c := Nat.add_le_add_left ih _
      _ ≤ (a + tl.sum) / c := nat_div_add_div_le a tl.sum c

lemma sum_map_mul_weight (l : List (String × ℕ)) (b : ℕ) :
    (l.map (fun cw => b * cw.2)).sum = b * weightSum l := by
  induction l with
  | nil => simp [weightSum]
  | cons a tl ih =>
    simp only [List.map_cons, List.sum_cons, weightSum] at ih ⊢
    rw [Nat.mul_add, ih]

lemma foldr_max_mem (l : List ℕ) (h : l ≠ []) : l.foldr max 0 ∈ l := by
  induction l with
  | nil => exact absurd rfl h
  | cons a tl ih =>
    cases tl with
    | nil => simp
    | cons b tl2 =>
      rcases max_choice a ((b :: tl2).foldr max 0) with hm | hm
      · rw [List.foldr_cons, hm]
        exact List.mem_cons_self _ _
      · rw [List.foldr_cons, hm]
        exact List.mem_cons_of_mem _ (ih (by simp))

lemma addRemainder_sum (buckets : List (String × ℕ)) (m r : ℕ)
    (hmem : m ∈ buckets.map (fun b => b.2)) :
    amountsSum (addRemainderToLargest buckets m r) = amountsSum buckets + r := by
  induction buckets with
  | nil => simp at hmem
  | cons b tl ih =>
    obtain ⟨c, a⟩ := b
    by_cases ha : a = m
    · simp only [addRemainderToLargest, if_pos ha, amountsSum,
        List.map_cons, List.sum_cons]
      omega
    · have hm : m ∈ tl.map (fun x => x.2) := by
        rcases List.mem_cons.mp hmem with hma | hmt
        · exact absurd hma.symm ha
        · exact hmt
      simp only [addRemainderToLargest, if_neg ha, amountsSum,
        List.map_cons, List.sum_cons] at ih ⊢
      rw [ih hm]
      omega

lemma baseBuckets_amounts (weights : List (String × ℕ)) (total : ℕ) :
    (baseBuckets weights total).map (fun b => b.2) =
      (weights.map (fun cw => total * cw.2)).map
        (fun a => a / weightSum weights) := by
  simp [baseBuckets, List.map_map, Function.comp]

lemma amountsSum_base_le (weights : List (String × ℕ)) (total : ℕ)
    (hw : 0 < weightSum weights) :
    amountsSum (baseBuckets weights total) ≤ total := by
  rw [amountsSum, baseBuckets_amounts]
  refine le_trans (sum_map_div_le _ _) ?_
  rw [sum_map_mul_weight, Nat.mul_div_cancel _ hw]

/-- C5: for every `allocate` call with a positive total weight, the bucket
amounts of the returned breakdown sum to exactly the requested total (in
minor units) — a zero total gives the empty breakdown summing to zero, and
otherwise the floored shares plus the remainder assigned to the largest
bucket reconstruct the total exactly, with no rounding leakage. -/
theorem allocate_sum_exact (weights : List (String × ℕ)) (total : ℕ)
    (hw : 0 < weightSum weights) :
    amountsSum (allocate weights total) = total := by
  by_cases ht : total = 0
  · simp [allocate, ht, amountsSum]
  · have hne : weights ≠ [] := by
      intro h
      rw [h] at hw
      simp [weightSum] at hw
    have hbne : (baseBuckets weights total).map (fun b => b.2) ≠ [] := by
      intro h
      exact hne (List.map_eq_nil_iff.mp (List.map_eq_nil_iff.mp h))
    have hmem : maxAmount (baseBuckets weights total) ∈
        (baseBuckets weights total).map (fun b => b.2) :=
      foldr_max_mem _ hbne
    have hle := amountsSum_base_le weights total hw
    rw [allocate, if_neg ht, addRemainder_sum _ _ _ hmem]
    omega

theorem allocate_sum_exact_witness :
    amountsSum (allocate
      [("住宿", 5), ("餐饮", 3), ("交通", 2)] 10001) = 10001 :=
  allocate_sum_exact [("住宿", 5), ("餐饮", 3), ("交通", 2)] 10001
    (by decide)

end TravelPlanner
